import Mathlib

/-!
Verification of the data-cleaning and analytics core of the
KellynDataCleaningProject repository (src/src/datacleaning.py and
src/src/analytics.py), via a shallow embedding in Lean 4.

Modelling conventions:
* Python strings are Lean `String`; a dictionary cell that is absent or
  mapped to `None` is modelled as `Option.none` (both behave identically in
  the source, which reads cells with `row.get(key) or ""`).
* Python `float(...)` string parsing is modelled exactly on its decimal
  grammar (optional sign, digits with optional fraction and exponent,
  `inf`/`infinity`/`nan` case-insensitively); the parsed finite value is kept
  exact as a pair (mantissa, decimal exponent) instead of rounding to
  binary64, and a finite literal whose exact magnitude reaches 2 ^ 1024 is
  mapped to the infinity that Python would overflow to.  Digit-separator
  underscores and non-ASCII digits, which Python also accepts, are outside
  the model; no claim exercises them.
* `int(f)` truncates toward zero, raises `OverflowError` on infinities and
  `ValueError` on `nan`; fallible Python code is embedded in `Except PyExc`.
* Python `sort` / `Counter.most_common` are stable; they are embedded as a
  stable insertion sort (stable sorts of a list agree pointwise).
-/

/-- Exceptions that the embedded code can raise. -/
inductive PyExc where
  | valueError
  | overflowError
deriving DecidableEq

instance {ε α : Type} [DecidableEq ε] [DecidableEq α] : DecidableEq (Except ε α) :=
  fun x y =>
    match x, y with
    | .ok a, .ok b =>
        if h : a = b then .isTrue (by rw [h]) else .isFalse (by simp [h])
    | .error a, .error b =>
        if h : a = b then .isTrue (by rw [h]) else .isFalse (by simp [h])
    | .ok _, .error _ => .isFalse (by simp)
    | .error _, .ok _ => .isFalse (by simp)

/-- Codepoints of the characters stripped by Python `str.strip()` and
matched by the regex class `\\s`: space, tab, newline, carriage return,
vertical tab, form feed, the file/group/record/unit separators, next line,
and the Unicode space characters. -/
def pySpaceCodes : List Nat :=
  [32, 9, 10, 13, 11, 12, 28, 29, 30, 31, 133, 160, 5760,
   8192, 8193, 8194, 8195, 8196, 8197, 8198, 8199, 8200, 8201, 8202,
   8232, 8233, 8239, 8287, 12288]

/-- Whitespace test used by `str.strip()` and by `\\s` in the name regex. -/
def isPySpace (c : Char) : Bool :=
  pySpaceCodes.contains c.toNat

/-- Python `str.strip()`: remove leading and trailing whitespace. -/
def pyStrip (s : String) : String :=
  ⟨(s.data.dropWhile isPySpace).reverse.dropWhile isPySpace |>.reverse⟩

/-- Python `sep.join(xs)`. -/
def pyJoin (sep : String) : List String → String
  | [] => ""
  | [a] => a
  | a :: b :: t => a ++ sep ++ pyJoin sep (b :: t)

/-- Value of a list of ASCII decimal digits. -/
def digitsToNat (ds : List Char) : Nat :=
  ds.foldl (fun a c => a * 10 + (c.toNat - 48)) 0

/-- Exact value of a Python float literal: `finite m e` stands for
`m * 10 ^ e`; infinities and nan are kept symbolic. -/
inductive PyFloat where
  | finite (m : Int) (e : Int)
  | inf
  | neginf
  | nan
deriving DecidableEq

/-- Parse the optional exponent tail of a float literal (everything after
the mantissa); the whole remainder must be consumed. -/
def parseExpTail (cs : List Char) : Option Int :=
  match cs with
  | [] => some 0
  | c :: rest =>
    if c = 'e' ∨ c = 'E' then
      let (sgn, r2) : Int × List Char :=
        match rest with
        | '+' :: t => (1, t)
        | '-' :: t => (-1, t)
        | t => (1, t)
      let (ds, r3) := r2.span Char.isDigit
      if ds.isEmpty ∨ ¬ r3.isEmpty then none
      else some (sgn * (digitsToNat ds : Int))
    else none

/-- Parse an unsigned decimal mantissa with optional fraction and exponent
into (mantissa, decimal exponent). -/
def parseDec (cs : List Char) : Option (Int × Int) :=
  let (ip, r1) := cs.span Char.isDigit
  match r1 with
  | '.' :: r2 =>
    let (fp, r3) := r2.span Char.isDigit
    if ip.isEmpty ∧ fp.isEmpty then none
    else
      match parseExpTail r3 with
      | none => none
      | some ex => some ((digitsToNat (ip ++ fp) : Int), ex - (fp.length : Int))
  | _ =>
    if ip.isEmpty then none
    else
      match parseExpTail r1 with
      | none => none
      | some ex => some ((digitsToNat ip : Int), ex)

/-- Magnitude test for overflow of an exact decimal to binary64 infinity:
`|m * 10 ^ e|` reaches `2 ^ 1024`. -/
def decOverflow (m e : Int) : Bool :=
  if 0 ≤ e then 2 ^ 1024 ≤ m.natAbs * 10 ^ e.toNat
  else 2 ^ 1024 * 10 ^ (-e).toNat ≤ m.natAbs

/-- Wrap an exact signed decimal into a `PyFloat`, overflowing to infinity
as Python float conversion does. -/
def mkFinite (m e : Int) : PyFloat :=
  if decOverflow m e then (if 0 ≤ m then .inf else .neginf)
  else .finite m e

/-- Python `float(s)` on an already-stripped string: optional sign, then
either a decimal number or `inf` / `infinity` / `nan` (case-insensitive).
Returns `none` where Python raises `ValueError`. -/
def pyFloatOfString (s : String) : Option PyFloat :=
  let (neg, body) : Bool × List Char :=
    match s.data with
    | '+' :: t => (false, t)
    | '-' :: t => (true, t)
    | t => (false, t)
  let low := body.map Char.toLower
  if low = "inf".data ∨ low = "infinity".data then
    some (if neg then .neginf else .inf)
  else if low = "nan".data then some .nan
  else
    match parseDec body with
    | none => none
    | some (m, e) => some (mkFinite (if neg then -m else m) e)

/-- Truncation toward zero of the exact value `m * 10 ^ e`. -/
def decTrunc (m e : Int) : Int :=
  if 0 ≤ e then m * 10 ^ e.toNat else Int.tdiv m (10 ^ (-e).toNat)

/-- Python `int(f)` on a float: truncates toward zero, raises
`OverflowError` on infinities and `ValueError` on nan. -/
def pyIntOfFloat : PyFloat → Except PyExc Int
  | .finite m e => .ok (decTrunc m e)
  | .inf => .error .overflowError
  | .neginf => .error .overflowError
  | .nan => .error .valueError

/-!  ## The validators (datacleaning.py, class DataCleaner)  -/

/-- Embeds `DataCleaner.is_valid_name` (datacleaning.py lines 40-63): the
regex `^[A-Za-z\s]+$` accepts exactly nonempty strings of ASCII letters and
whitespace (after stripping, `$` cannot see a trailing newline). -/
def is_valid_name (name : String) : Bool × String :=
  if pyStrip name = "" then (false, "missing name")
  else if (pyStrip name).length < 2 then (false, "name too short")
  else if (pyStrip name).data.all (fun c => c.isAlpha ∨ isPySpace c) then (true, "")
  else (false, "special character in name")

/-- Embeds `DataCleaner.is_valid_numeric` (datacleaning.py lines 65-84):
`int(float(str(value).strip()))` guarded by `except (ValueError, TypeError)`.
An `OverflowError` from `int` on an infinite float is not caught and
escapes. -/
def is_valid_numeric (value : String) (field : String) :
    Except PyExc (Bool × String × Int) :=
  if pyStrip value = "" then .ok (false, "missing " ++ field, 0)
  else
    match pyFloatOfString (pyStrip value) with
    | none => .ok (false, "invalid " ++ field ++ " (not numeric)", 0)
    | some f =>
      match pyIntOfFloat f with
      | .ok n => .ok (true, "", n)
      | .error .valueError => .ok (false, "invalid " ++ field ++ " (not numeric)", 0)
      | .error e => .error e

/-- Embeds `DataCleaner.is_valid_day` (datacleaning.py lines 86-91). -/
def is_valid_day (day : Int) : Bool × String :=
  if day < 1 ∨ day > 31 then (false, "invalid day (not 1-31)") else (true, "")

/-- Embeds `DataCleaner.is_valid_month` (datacleaning.py lines 93-98). -/
def is_valid_month (month : Int) : Bool × String :=
  if month < 1 ∨ month > 12 then (false, "invalid month (not 1-12)") else (true, "")

/-- Embeds `DataCleaner.is_valid_year` (datacleaning.py lines 100-105). -/
def is_valid_year (year : Int) : Bool × String :=
  if year < 1940 then (false, "birth_year older than 1940") else (true, "")

set_option maxRecDepth 100000
set_option exponentiation.threshold 2048

/-!  ## Row cleaning (datacleaning.py, clean_row and clean_dataset)  -/

/-- A raw input row as handed to `clean_row`: each dictionary cell is
`none` when its key is absent or maps to `None` (the source reads the four
data cells with `row.get(key, "") or ""`, which treats both the same). -/
structure RawRow where
  row_id : Option String
  original_row_number : Option Nat
  firstname : Option String
  birthday : Option String
  birthmonth : Option String
  birthyear : Option String
deriving DecidableEq

/-- The `cleaned` dictionary built by `clean_row`: validated fields are
present only when their validation succeeded. -/
structure CleanedRow where
  row_id : Option String
  original_row_number : Option Nat
  name : Option String
  birth_day : Option Int
  birth_month : Option Int
  birth_year : Option Int
  original_name : Option String
  original_birth_day : Option String
  original_birth_month : Option String
  original_birth_year : Option String
deriving DecidableEq

/-- The validate-then-range-check block that `clean_row` performs for each
of the three numeric fields (datacleaning.py lines 138-147, repeated
verbatim for month and year): the error list contributed by the field and
the cleaned value (present only when both steps succeed).  A parse failure
skips the range check of this field only.  The uncaught `OverflowError` of
`is_valid_numeric` propagates. -/
def numRange (s field : String) (check : Int → Bool × String) :
    Except PyExc (List String × Option Int) := do
  let (v, e, n) ← is_valid_numeric s field
  if v then
    match check n with
    | (true, _) => return (([] : List String), some n)
    | (false, er) => return ([er], none)
  else return ([e], none)

/-- Embeds `DataCleaner.clean_row` (datacleaning.py lines 107-178): all four
fields are validated independently and every failure reason is appended in
field order (name, day, month, year). -/
def clean_row (row : RawRow) : Except PyExc (Bool × CleanedRow × List String) := do
  let name := row.firstname.getD ""
  let birth_day := row.birthday.getD ""
  let birth_month := row.birthmonth.getD ""
  let birth_year := row.birthyear.getD ""
  let (name_valid, name_error) := is_valid_name name
  let nameErrs := if name_valid then [] else [name_error]
  let cleanedName := if name_valid then some (pyStrip name) else none
  let (dayErrs, cleanedDay) ← numRange birth_day "birth_day" is_valid_day
  let (monthErrs, cleanedMonth) ← numRange birth_month "birth_month" is_valid_month
  let (yearErrs, cleanedYear) ← numRange birth_year "birth_year" is_valid_year
  let errors := nameErrs ++ dayErrs ++ monthErrs ++ yearErrs
  let cleaned : CleanedRow :=
    { row_id := row.row_id
      original_row_number := row.original_row_number
      name := cleanedName
      birth_day := cleanedDay
      birth_month := cleanedMonth
      birth_year := cleanedYear
      original_name := if name = "" then none else some name
      original_birth_day := if birth_day = "" then none else some birth_day
      original_birth_month := if birth_month = "" then none else some birth_month
      original_birth_year := if birth_year = "" then none else some birth_year }
  return (errors.isEmpty, cleaned, errors)

/-- An element of `included_data` (datacleaning.py lines 201-208). -/
structure IncludedRecord where
  row_id : Option String
  original_row_number : Option Nat
  name : String
  birth_day : Int
  birth_month : Int
  birth_year : Int
deriving DecidableEq

/-- An element of `excluded_data` (datacleaning.py lines 212-220). -/
structure ExcludedRecord where
  row_id : Option String
  original_row_number : Option Nat
  original_name : Option String
  original_birth_day : Option String
  original_birth_month : Option String
  original_birth_year : Option String
  exclusion_reason : String
deriving DecidableEq

/-- The included row built by `clean_dataset` from the cleaned dictionary.
The `getD` defaults are never reached: on a valid row every validated field
is present (the dictionary accesses in the source cannot fail). -/
def includedOf (c : CleanedRow) : IncludedRecord :=
  { row_id := c.row_id
    original_row_number := c.original_row_number
    name := c.name.getD ""
    birth_day := c.birth_day.getD 0
    birth_month := c.birth_month.getD 0
    birth_year := c.birth_year.getD 0 }

/-- The excluded row built by `clean_dataset`: audit copies of the raw
cells plus the reasons joined with a semicolon separator. -/
def excludedOf (c : CleanedRow) (errors : List String) : ExcludedRecord :=
  { row_id := c.row_id
    original_row_number := c.original_row_number
    original_name := c.original_name
    original_birth_day := c.original_birth_day
    original_birth_month := c.original_birth_month
    original_birth_year := c.original_birth_year
    exclusion_reason := pyJoin "; " errors }

/-- Embeds `DataCleaner.clean_dataset` (datacleaning.py lines 181-228):
each row goes through `clean_row` and is appended to exactly one of the two
output collections; the progress logging has no effect on the result. -/
def clean_dataset : List RawRow → Except PyExc (List IncludedRecord × List ExcludedRecord)
  | [] => .ok ([], [])
  | row :: rest => do
    let (is_valid, cleaned, errors) ← clean_row row
    let (inc, exc) ← clean_dataset rest
    if is_valid then return (includedOf cleaned :: inc, exc)
    else return (inc, excludedOf cleaned errors :: exc)

/-!  ## Analytics (analytics.py, class AnalyticsEngine)  -/

/-- Python banker rounding (round-half-to-even) of a rational to an
integer, as `round` does on floats; values are kept exact here. -/
def roundHalfEven (q : ℚ) : Int :=
  let f := ⌊q⌋
  let r := q - f
  if r < 1 / 2 then f
  else if 1 / 2 < r then f + 1
  else if f % 2 = 0 then f else f + 1

/-- Python `round(q, 2)`. -/
def pyRound2 (q : ℚ) : ℚ :=
  (roundHalfEven (q * 100) : ℚ) / 100

/-- Result dictionary of `get_dataset_sizes`. -/
structure DatasetSizes where
  original_row_count : Nat
  included_row_count : Nat
  excluded_row_count : Nat
  percent_included_vs_original : ℚ
  percent_excluded_vs_original : ℚ
deriving DecidableEq

/-- Embeds `AnalyticsEngine.get_dataset_sizes` (analytics.py lines 31-47),
with its divide-by-zero guard on the percentage fields. -/
def get_dataset_sizes (included : List IncludedRecord)
    (excluded : List ExcludedRecord) (original_count : Nat) : DatasetSizes :=
  let ic := included.length
  let ec := excluded.length
  { original_row_count := original_count
    included_row_count := ic
    excluded_row_count := ec
    percent_included_vs_original :=
      if 0 < original_count then pyRound2 ((ic : ℚ) / original_count * 100) else 0
    percent_excluded_vs_original :=
      if 0 < original_count then pyRound2 ((ec : ℚ) / original_count * 100) else 0 }

/-- One entry of `significant_duplicates` in `get_duplicate_analysis`. -/
structure DupGroup where
  combination_type : String
  combination_value : String
  count : Nat
  records : List IncludedRecord
deriving DecidableEq

/-- The six pairwise combination keys formed for one included record
(analytics.py lines 126-133); the six combination types are pairwise
distinct strings, so the six keys are distinct. -/
def comboList (r : IncludedRecord) : List (String × String) :=
  [("name_day", r.name ++ "|" ++ toString r.birth_day),
   ("name_month", r.name ++ "|" ++ toString r.birth_month),
   ("name_year", r.name ++ "|" ++ toString r.birth_year),
   ("day_month", toString r.birth_day ++ "|" ++ toString r.birth_month),
   ("day_year", toString r.birth_day ++ "|" ++ toString r.birth_year),
   ("month_year", toString r.birth_month ++ "|" ++ toString r.birth_year)]

/-- Append a record to the group of one key, keeping keys in first-insertion
order, as a Python (3.7+) `defaultdict(list)` does. -/
def addToGroup (gs : List ((String × String) × List IncludedRecord))
    (key : String × String) (r : IncludedRecord) :
    List ((String × String) × List IncludedRecord) :=
  match gs with
  | [] => [(key, [r])]
  | (k, rs) :: t =>
    if k = key then (k, rs ++ [r]) :: t else (k, rs) :: addToGroup t key r

/-- Process one included record: append it to each of its six key groups. -/
def addRowGroups (gs : List ((String × String) × List IncludedRecord))
    (r : IncludedRecord) : List ((String × String) × List IncludedRecord) :=
  (comboList r).foldl (fun gs kv => addToGroup gs kv r) gs

/-- The `duplicate_groups` dictionary after the grouping loop of
`get_duplicate_analysis` (analytics.py lines 117-136). -/
def buildGroups (rows : List IncludedRecord) :
    List ((String × String) × List IncludedRecord) :=
  rows.foldl addRowGroups []

/-- Stable insertion of one element into a list sorted descending by `f`;
an element is placed before the first entry whose key does not exceed its
own, so earlier elements win ties. -/
def insertCountDesc {α : Type} (f : α → Nat) (x : α) : List α → List α
  | [] => [x]
  | h :: t => if f x < f h then h :: insertCountDesc f x t else x :: h :: t

/-- Stable sort, descending by `f`.  Python `list.sort` and
`Counter.most_common` are stable sorts; any two stable sorts of a list
agree, so this insertion sort is the embedding of both. -/
def sortCountDesc {α : Type} (f : α → Nat) : List α → List α
  | [] => []
  | h :: t => insertCountDesc f h (sortCountDesc f t)

/-- The retained duplicate groups (at least two members), in key
first-insertion order, each truncated to 10 sample records
(analytics.py lines 139-150). -/
def significantDuplicates (rows : List IncludedRecord) : List DupGroup :=
  ((buildGroups rows).filter (fun g => 2 ≤ g.2.length)).map
    (fun g => ⟨g.1.1, g.1.2, g.2.length, g.2.take 10⟩)

/-- Result dictionary of `get_duplicate_analysis`; the early return for an
empty included collection omits the `unique_duplicate_groups` key, modelled
as `none`. -/
structure DupAnalysis where
  total_duplicate_records : Nat
  unique_duplicate_groups : Option Nat
  duplicate_groups : List DupGroup
deriving DecidableEq

/-- Embeds `AnalyticsEngine.get_duplicate_analysis` (analytics.py lines
103-159). -/
def get_duplicate_analysis (included : List IncludedRecord) : DupAnalysis :=
  if included.isEmpty then ⟨0, none, []⟩
  else
    let sig := significantDuplicates included
    { total_duplicate_records := (sig.map (fun g => g.count)).sum
      unique_duplicate_groups := some sig.length
      duplicate_groups := (sortCountDesc (fun g => g.count) sig).take 50 }

/-- Increment the counter of one reason, keeping keys in first-insertion
order, as `collections.Counter` does. -/
def bumpCounter : List (String × Nat) → String → List (String × Nat)
  | [], r => [(r, 1)]
  | (k, n) :: t, r => if k = r then (k, n + 1) :: t else (k, n) :: bumpCounter t r

/-- Python `s.split(sep)` for a one-character separator: split at every
occurrence, keeping empty segments. -/
def pySplitChar (sep : Char) : List Char → List String
  | [] => [""]
  | c :: t =>
    let r := pySplitChar sep t
    if c = sep then "" :: r
    else
      match r with
      | [] => [⟨[c]⟩]
      | s :: rest => (⟨c :: s.data⟩ : String) :: rest

/-- The stripped nonempty segments of one exclusion reason, split on the
semicolon (analytics.py lines 219-223). -/
def reasonSegments (row : ExcludedRecord) : List String :=
  ((pySplitChar ';' row.exclusion_reason.data).map pyStrip).filter (fun r => r ≠ "")

/-- Embeds `AnalyticsEngine.get_exclusion_reasons_summary` (analytics.py
lines 205-230): count every individual stripped reason across the excluded
set, then sort by count descending (`Counter.most_common`, stable). -/
def get_exclusion_reasons_summary (excluded : List ExcludedRecord) :
    List (String × Nat) :=
  if excluded.isEmpty then []
  else
    sortCountDesc (fun p => p.2)
      (excluded.foldl (fun c row => (reasonSegments row).foldl bumpCounter c) [])

/-!  ## The independent per-field validation pass (spec side, for the
reason-completeness claim)  -/

/-- Reasons one numeric field contributes when validated independently:
numeric parse first, range check only after a successful parse. -/
def numThenRange (s field : String) (check : Int → Bool × String) :
    Except PyExc (List String) := do
  let (v, e, n) ← is_valid_numeric s field
  if v then
    match check n with
    | (true, _) => return ([] : List String)
    | (false, er) => return [er]
  else return [e]

/-- Reasons an independent per-field validation pass produces for the raw
values of a row, in field order (name, day, month, year). -/
def fieldReasons (row : RawRow) : Except PyExc (List String) := do
  let nameR :=
    match is_valid_name (row.firstname.getD "") with
    | (true, _) => ([] : List String)
    | (false, e) => [e]
  let dayR ← numThenRange (row.birthday.getD "") "birth_day" is_valid_day
  let monthR ← numThenRange (row.birthmonth.getD "") "birth_month" is_valid_month
  let yearR ← numThenRange (row.birthyear.getD "") "birth_year" is_valid_year
  return nameR ++ dayR ++ monthR ++ yearR

/-!  ## Helper lemmas  -/

lemma string_append_ne_empty (a b : String) (h : a ≠ "") : a ++ b ≠ "" := by
  intro hc
  apply h
  have hd := congrArg String.data hc
  rw [String.data_append] at hd
  rcases List.append_eq_nil.mp hd with ⟨h1, -⟩
  cases a
  simp_all

lemma pyJoin_ne_empty (sep : String) (l : List String) (hne : l ≠ [])
    (h : ∀ e ∈ l, e ≠ "") : pyJoin sep l ≠ "" := by
  match l with
  | [] => exact absurd rfl hne
  | [a] => exact h a (by simp)
  | a :: b :: t =>
    show a ++ sep ++ pyJoin sep (b :: t) ≠ ""
    exact string_append_ne_empty _ _ (string_append_ne_empty _ _ (h a (by simp)))

lemma is_valid_name_false_ne (s : String) (e : String)
    (h : is_valid_name s = (false, e)) : e ≠ "" := by
  unfold is_valid_name at h
  split at h
  · simp only [Prod.mk.injEq] at h; rw [← h.2]; decide
  · split at h
    · simp only [Prod.mk.injEq] at h; rw [← h.2]; decide
    · split at h
      · simp at h
      · simp only [Prod.mk.injEq] at h; rw [← h.2]; decide

lemma is_valid_numeric_ok_false (s f e : String) (n : Int)
    (h : is_valid_numeric s f = .ok (false, e, n)) :
    e = "missing " ++ f ∨ e = "invalid " ++ f ++ " (not numeric)" := by
  unfold is_valid_numeric at h
  split at h
  · left
    simp only [Except.ok.injEq, Prod.mk.injEq] at h
    exact h.2.1.symm
  · cases hp : pyFloatOfString (pyStrip s) with
    | none =>
      rw [hp] at h
      right
      simp only [Except.ok.injEq, Prod.mk.injEq] at h
      exact h.2.1.symm
    | some fl =>
      rw [hp] at h
      cases fl with
      | finite m e2 => simp [pyIntOfFloat] at h
      | inf => simp [pyIntOfFloat] at h
      | neginf => simp [pyIntOfFloat] at h
      | nan =>
        right
        simp only [pyIntOfFloat, Except.ok.injEq, Prod.mk.injEq] at h
        exact h.2.1.symm

lemma is_valid_numeric_ok_false_ne (s f e : String) (n : Int)
    (h : is_valid_numeric s f = .ok (false, e, n)) : e ≠ "" := by
  rcases is_valid_numeric_ok_false s f e n h with he | he <;> subst he
  · intro hc
    have hd := congrArg String.data hc
    rw [String.data_append] at hd
    simp [show ("missing " : String).data = 'm' :: "issing ".data from rfl] at hd
  · intro hc
    have hd := congrArg String.data hc
    rw [String.data_append, String.data_append] at hd
    simp [show ("invalid " : String).data = 'i' :: "nvalid ".data from rfl] at hd

lemma is_valid_day_false_ne (i : Int) (e : String)
    (h : is_valid_day i = (false, e)) : e ≠ "" := by
  unfold is_valid_day at h
  split at h
  · simp only [Prod.mk.injEq] at h; rw [← h.2]; decide
  · simp at h

lemma is_valid_month_false_ne (i : Int) (e : String)
    (h : is_valid_month i = (false, e)) : e ≠ "" := by
  unfold is_valid_month at h
  split at h
  · simp only [Prod.mk.injEq] at h; rw [← h.2]; decide
  · simp at h

lemma is_valid_year_false_ne (i : Int) (e : String)
    (h : is_valid_year i = (false, e)) : e ≠ "" := by
  unfold is_valid_year at h
  split at h
  · simp only [Prod.mk.injEq] at h; rw [← h.2]; decide
  · simp at h

lemma numRange_ok_ne (s f : String) (check : Int → Bool × String)
    (hcheck : ∀ i e, check i = (false, e) → e ≠ "")
    (l : List String) (v : Option Int) (h : numRange s f check = .ok (l, v)) :
    ∀ e ∈ l, e ≠ "" := by
  unfold numRange at h
  cases hn : is_valid_numeric s f with
  | error ex => rw [hn] at h; simp [Bind.bind, Except.bind] at h
  | ok p =>
    obtain ⟨vb, eb, nb⟩ := p
    rw [hn] at h
    cases vb with
    | false =>
      simp only [Bind.bind, Except.bind, Bool.false_eq_true, if_false, pure,
        Except.pure, Except.ok.injEq, Prod.mk.injEq] at h
      obtain ⟨h1, -⟩ := h
      subst h1
      intro e he
      simp only [List.mem_singleton] at he
      subst he
      exact is_valid_numeric_ok_false_ne s f e nb hn
    | true =>
      rcases hc : check nb with ⟨cb, ce⟩
      cases cb with
      | true =>
        simp only [Bind.bind, Except.bind, if_true, hc, pure, Except.pure,
          Except.ok.injEq, Prod.mk.injEq] at h
        obtain ⟨h1, -⟩ := h
        subst h1
        intro e he
        simp at he
      | false =>
        simp only [Bind.bind, Except.bind, if_true, hc, pure, Except.pure,
          Except.ok.injEq, Prod.mk.injEq] at h
        obtain ⟨h1, -⟩ := h
        subst h1
        intro e he
        simp only [List.mem_singleton] at he
        subst he
        exact hcheck nb e hc

lemma numThenRange_eq (s f : String) (check : Int → Bool × String) :
    numThenRange s f check = (numRange s f check).map Prod.fst := by
  unfold numThenRange numRange
  cases hn : is_valid_numeric s f with
  | error ex => simp [Bind.bind, Except.bind, Except.map]
  | ok p =>
    obtain ⟨vb, eb, nb⟩ := p
    cases vb with
    | false => simp [Bind.bind, Except.bind, Except.map, pure, Except.pure]
    | true =>
      rcases hc : check nb with ⟨cb, ce⟩
      cases cb <;>
        simp [Bind.bind, Except.bind, Except.map, pure, Except.pure, hc]

lemma clean_row_ok_shape (row : RawRow) (b : Bool) (c : CleanedRow) (errs : List String)
    (h : clean_row row = .ok (b, c, errs)) :
    b = errs.isEmpty ∧ fieldReasons row = .ok errs ∧
    c.row_id = row.row_id ∧ c.original_row_number = row.original_row_number ∧
    (∀ e ∈ errs, e ≠ "") := by
  unfold clean_row at h
  dsimp only at h
  cases hd : numRange (row.birthday.getD "") "birth_day" is_valid_day with
  | error ex => rw [hd] at h; simp [Bind.bind, Except.bind] at h
  | ok pd =>
    obtain ⟨dErrs, dVal⟩ := pd
    rw [hd] at h
    cases hm : numRange (row.birthmonth.getD "") "birth_month" is_valid_month with
    | error ex => rw [hm] at h; simp [Bind.bind, Except.bind] at h
    | ok pm =>
      obtain ⟨mErrs, mVal⟩ := pm
      rw [hm] at h
      cases hy : numRange (row.birthyear.getD "") "birth_year" is_valid_year with
      | error ex => rw [hy] at h; simp [Bind.bind, Except.bind] at h
      | ok py =>
        obtain ⟨yErrs, yVal⟩ := py
        rw [hy] at h
        rcases hnm : is_valid_name (row.firstname.getD "") with ⟨nv, ne⟩
        rw [hnm] at h
        dsimp only at h
        have hday := numRange_ok_ne _ _ _ is_valid_day_false_ne _ _ hd
        have hmonth := numRange_ok_ne _ _ _ is_valid_month_false_ne _ _ hm
        have hyear := numRange_ok_ne _ _ _ is_valid_year_false_ne _ _ hy
        cases nv with
        | true =>
          simp only [Bind.bind, Except.bind, if_true, eq_self_iff_true, pure,
            Except.pure, Except.ok.injEq, Prod.mk.injEq] at h
          obtain ⟨hb, hcc, herrs⟩ := h
          subst hb
          subst hcc
          subst herrs
          refine ⟨rfl, ?_, rfl, rfl, ?_⟩
          · unfold fieldReasons
            rw [numThenRange_eq, numThenRange_eq, numThenRange_eq, hd, hm, hy, hnm]
            simp [Bind.bind, Except.bind, Except.map, pure, Except.pure]
          · intro e he
            simp only [List.nil_append, List.append_assoc, List.mem_append] at he
            rcases he with he | he | he
            · exact hday e he
            · exact hmonth e he
            · exact hyear e he
        | false =>
          simp only [Bind.bind, Except.bind, Bool.false_eq_true, if_false, pure,
            Except.pure, Except.ok.injEq, Prod.mk.injEq] at h
          obtain ⟨hb, hcc, herrs⟩ := h
          subst hb
          subst hcc
          subst herrs
          refine ⟨rfl, ?_, rfl, rfl, ?_⟩
          · unfold fieldReasons
            rw [numThenRange_eq, numThenRange_eq, numThenRange_eq, hd, hm, hy, hnm]
            simp [Bind.bind, Except.bind, Except.map, pure, Except.pure]
          · intro e he
            simp only [List.append_assoc, List.cons_append, List.nil_append,
              List.mem_cons, List.mem_append] at he
            rcases he with he | he | he | he
            · subst he; exact is_valid_name_false_ne _ _ hnm
            · exact hday e he
            · exact hmonth e he
            · exact hyear e he

lemma clean_dataset_partition (data : List RawRow) (inc : List IncludedRecord)
    (exc : List ExcludedRecord) (h : clean_dataset data = .ok (inc, exc)) :
    inc.length + exc.length = data.length ∧
    ((inc.map fun r => r.row_id) ++ (exc.map fun r => r.row_id)).Perm
      (data.map fun r => r.row_id) := by
  induction data generalizing inc exc with
  | nil =>
    unfold clean_dataset at h
    simp only [Except.ok.injEq, Prod.mk.injEq] at h
    obtain ⟨h1, h2⟩ := h
    subst h1
    subst h2
    simp
  | cons row rest ih =>
    unfold clean_dataset at h
    cases hcr : clean_row row with
    | error ex => rw [hcr] at h; simp [Bind.bind, Except.bind] at h
    | ok t =>
      obtain ⟨b, c, errs⟩ := t
      rw [hcr] at h
      cases hcd : clean_dataset rest with
      | error ex => rw [hcd] at h; simp [Bind.bind, Except.bind] at h
      | ok p =>
        obtain ⟨i, e⟩ := p
        rw [hcd] at h
        obtain ⟨-, -, hrid, -, -⟩ := clean_row_ok_shape row b c errs hcr
        obtain ⟨ihl, ihp⟩ := ih i e hcd
        cases b with
        | true =>
          simp only [Bind.bind, Except.bind, if_true, pure, Except.pure,
            Except.ok.injEq, Prod.mk.injEq] at h
          obtain ⟨h1, h2⟩ := h
          subst h1
          subst h2
          constructor
          · simp only [List.length_cons]
            omega
          · simp only [List.map_cons, List.cons_append]
            have : (includedOf c).row_id = row.row_id := by
              simp [includedOf, hrid]
            rw [this]
            exact ihp.cons _
        | false =>
          simp only [Bind.bind, Except.bind, Bool.false_eq_true, if_false, pure,
            Except.pure, Except.ok.injEq, Prod.mk.injEq] at h
          obtain ⟨h1, h2⟩ := h
          subst h1
          subst h2
          constructor
          · simp only [List.length_cons]
            omega
          · simp only [List.map_cons]
            have : (excludedOf c errs).row_id = row.row_id := by
              simp [excludedOf, hrid]
            rw [this]
            exact List.perm_middle.trans (ihp.cons _)

/-!  ## Sample data for concrete witnesses  -/

/-- A fully valid sample raw row. -/
def rowAnn : RawRow := ⟨some "a", some 2, some "Ann", some "1", some "5", some "1990"⟩

/-- A sample raw row failing all four validations. -/
def rowBadJ : RawRow := ⟨some "b", some 3, some "J", some "0", some "13", some "1939"⟩

/-- The included record that `clean_dataset` emits for `rowAnn`. -/
def incAnn : IncludedRecord := ⟨some "a", some 2, "Ann", 1, 5, 1990⟩

/-- The cleaned dictionary that `clean_row` builds for `rowBadJ`. -/
def cleanedBadJ : CleanedRow :=
  ⟨some "b", some 3, none, none, none, none, some "J", some "0", some "13", some "1939"⟩

/-- The reason list that `clean_row` collects for `rowBadJ`. -/
def errsBadJ : List String :=
  ["name too short", "invalid day (not 1-31)", "invalid month (not 1-12)",
   "birth_year older than 1940"]

/-- The excluded record that `clean_dataset` emits for `rowBadJ`. -/
def excBadJ : ExcludedRecord :=
  ⟨some "b", some 3, some "J", some "0", some "13", some "1939",
   "name too short; invalid day (not 1-31); invalid month (not 1-12); birth_year older than 1940"⟩

/-!  ## Claim theorems  -/

/-- C1: for every input list of raw rows, `clean_dataset` partitions the
rows: the included and excluded counts sum to the input count, the
multiset of `row_id` values of the two outputs is exactly that of the
input, and when the input `row_id` values are distinct every input row`s
`row_id` appears in exactly one of the two output collections. -/
theorem C1_partition_totality (data : List RawRow) (inc : List IncludedRecord)
    (exc : List ExcludedRecord) (h : clean_dataset data = .ok (inc, exc)) :
    inc.length + exc.length = data.length ∧
    ((inc.map fun r => r.row_id) ++ (exc.map fun r => r.row_id)).Perm
      (data.map fun r => r.row_id) ∧
    ((data.map fun r => r.row_id).Nodup →
      ∀ row ∈ data,
        (row.row_id ∈ inc.map (fun r => r.row_id) ∧
          row.row_id ∉ exc.map (fun r => r.row_id)) ∨
        (row.row_id ∉ inc.map (fun r => r.row_id) ∧
          row.row_id ∈ exc.map (fun r => r.row_id))) := by
  obtain ⟨hlen, hperm⟩ := clean_dataset_partition data inc exc h
  refine ⟨hlen, hperm, ?_⟩
  intro hnd row hrow
  have hra : row.row_id ∈ data.map (fun r => r.row_id) :=
    List.mem_map_of_mem _ hrow
  have hnd2 : ((inc.map fun r => r.row_id) ++ (exc.map fun r => r.row_id)).Nodup :=
    hperm.nodup_iff.mpr hnd
  rw [List.nodup_append] at hnd2
  obtain ⟨-, -, hdisj⟩ := hnd2
  have hmem2 : row.row_id ∈ (inc.map fun r => r.row_id) ++ (exc.map fun r => r.row_id) :=
    hperm.mem_iff.mpr hra
  rw [List.mem_append] at hmem2
  rcases hmem2 with hin | hin
  · exact Or.inl ⟨hin, fun hexm => hdisj hin hexm⟩
  · exact Or.inr ⟨fun hinm => hdisj hinm hin, hin⟩

/-- Witness for C1 at a concrete two-row dataset (one valid, one fully
invalid row). -/
theorem C1_partition_totality_witness :
    ([incAnn].length + [excBadJ].length = [rowAnn, rowBadJ].length) ∧
    (([incAnn].map fun r => r.row_id) ++ ([excBadJ].map fun r => r.row_id)).Perm
      ([rowAnn, rowBadJ].map fun r => r.row_id) ∧
    (([rowAnn, rowBadJ].map fun r => r.row_id).Nodup →
      ∀ row ∈ [rowAnn, rowBadJ],
        (row.row_id ∈ [incAnn].map (fun r => r.row_id) ∧
          row.row_id ∉ [excBadJ].map (fun r => r.row_id)) ∨
        (row.row_id ∉ [incAnn].map (fun r => r.row_id) ∧
          row.row_id ∈ [excBadJ].map (fun r => r.row_id))) :=
  C1_partition_totality [rowAnn, rowBadJ] [incAnn] [excBadJ] (by decide)

/-- C2: for every row that `clean_row` rejects, the reason list is exactly
what the independent per-field validation pass (`fieldReasons`: name, then
day, month, year, numeric before range) produces, it is nonempty, and the
resulting excluded record carries those reasons joined with a semicolon
separator, which is a nonempty string. -/
theorem C2_reason_completeness (row : RawRow) (c : CleanedRow) (errs : List String)
    (h : clean_row row = .ok (false, c, errs)) :
    fieldReasons row = .ok errs ∧ errs ≠ [] ∧
    (excludedOf c errs).exclusion_reason = pyJoin "; " errs ∧
    (excludedOf c errs).exclusion_reason ≠ "" := by
  obtain ⟨hb, hfr, -, -, hne⟩ := clean_row_ok_shape row false c errs h
  have hnil : errs ≠ [] := by
    intro hcontra
    subst hcontra
    simp at hb
  exact ⟨hfr, hnil, rfl, pyJoin_ne_empty _ _ hnil hne⟩

/-- Witness for C2 at a concrete row failing all four validations. -/
theorem C2_reason_completeness_witness :
    fieldReasons rowBadJ = .ok errsBadJ ∧ errsBadJ ≠ [] ∧
    (excludedOf cleanedBadJ errsBadJ).exclusion_reason = pyJoin "; " errsBadJ ∧
    (excludedOf cleanedBadJ errsBadJ).exclusion_reason ≠ "" :=
  C2_reason_completeness rowBadJ cleanedBadJ errsBadJ (by decide)

/-- C3: the claim says per-row validation never raises, but the code can
raise: a birthday cell of "inf" passes `float` and then makes `int` raise
an uncaught `OverflowError` inside `is_valid_numeric`, which escapes
`clean_row`; on ordinary invalid cells the failure is indeed only recorded
in the reason list. -/
theorem C3_clean_row_raises :
    clean_row ⟨some "r", some 2, some "Ann", some "inf", some "5", some "1990"⟩ =
      .error .overflowError ∧
    is_valid_numeric "inf" "birth_day" = .error .overflowError ∧
    clean_row rowBadJ = .ok (false, cleanedBadJ, errsBadJ) := by decide

/-- C4 counterexample: the trimmed string "A\tB" contains a tab, which is
outside the set of ASCII letters and the space character, yet
`is_valid_name` accepts it — the regex class also admits tabs, newlines
and other whitespace. -/
theorem C4_name_rule_counterexample :
    is_valid_name "A\tB" = (true, "") ∧
    pyStrip "A\tB" = "A\tB" ∧
    ¬ ("A\tB".data.all fun c => c.isAlpha ∨ c = ' ') := by decide

/-- C4 amended: `is_valid_name` fails "missing name" iff the trimmed
string is empty, "name too short" iff the trimmed length is below 2, and
"special character in name" iff the trimmed string contains a character
that is neither an ASCII letter nor whitespace (not just the space
character); the five boundary examples behave as claimed. -/
theorem C4_name_rule_amended :
    (∀ s : String,
      (is_valid_name s = (false, "missing name") ↔ pyStrip s = "") ∧
      (is_valid_name s = (false, "name too short") ↔
        pyStrip s ≠ "" ∧ (pyStrip s).length < 2) ∧
      (is_valid_name s = (false, "special character in name") ↔
        2 ≤ (pyStrip s).length ∧
        ¬ ((pyStrip s).data.all fun c => c.isAlpha ∨ isPySpace c)) ∧
      (is_valid_name s = (true, "") ↔
        2 ≤ (pyStrip s).length ∧
        ((pyStrip s).data.all fun c => c.isAlpha ∨ isPySpace c))) ∧
    is_valid_name "O\x27Brien" = (false, "special character in name") ∧
    is_valid_name "Anna Maria" = (true, "") ∧
    is_valid_name "Jo" = (true, "") ∧
    is_valid_name "J" = (false, "name too short") ∧
    is_valid_name " \t " = (false, "missing name") := by
  have d1 : ("missing name" : String) ≠ "name too short" := by decide
  have d2 : ("missing name" : String) ≠ "special character in name" := by decide
  have d3 : ("name too short" : String) ≠ "special character in name" := by decide
  have hlen : ∀ s : String, pyStrip s = "" → (pyStrip s).length = 0 := by
    intro s hs
    rw [hs]
    rfl
  refine ⟨fun s => ?_, by decide, by decide, by decide, by decide, by decide⟩
  unfold is_valid_name
  split_ifs with h1 h2 h3 <;>
    simp_all <;>
    omega

/-- C5: the claim describes the numeric parse rule correctly on ordinary
inputs ("15" and "15.0" truncate to 15, "fifteen" is not numeric, the
empty string is missing), but the code does not fail gracefully on every
non-integer value: "inf" raises an uncaught `OverflowError` instead of
returning the claimed invalid-not-numeric failure. -/
theorem C5_numeric_parse :
    is_valid_numeric "15" "birth_day" = .ok (true, "", 15) ∧
    is_valid_numeric "15.0" "birth_day" = .ok (true, "", 15) ∧
    is_valid_numeric "fifteen" "birth_day" =
      .ok (false, "invalid birth_day (not numeric)", 0) ∧
    is_valid_numeric "" "birth_day" = .ok (false, "missing birth_day", 0) ∧
    is_valid_numeric "inf" "birth_day" = .error .overflowError := by decide

/-- C6: the range validators accept exactly [1,31] for days, [1,12] for
months, any year at least 1940 with no upper bound, and produce the fixed
reason codes otherwise; all boundary examples behave as claimed. -/
theorem C6_range_boundaries :
    (∀ d : Int, is_valid_day d = (true, "") ↔ 1 ≤ d ∧ d ≤ 31) ∧
    (∀ d : Int, is_valid_day d = (false, "invalid day (not 1-31)") ↔
      d < 1 ∨ 31 < d) ∧
    (∀ m : Int, is_valid_month m = (true, "") ↔ 1 ≤ m ∧ m ≤ 12) ∧
    (∀ m : Int, is_valid_month m = (false, "invalid month (not 1-12)") ↔
      m < 1 ∨ 12 < m) ∧
    (∀ y : Int, is_valid_year y = (true, "") ↔ 1940 ≤ y) ∧
    (∀ y : Int, is_valid_year y = (false, "birth_year older than 1940") ↔
      y < 1940) ∧
    is_valid_day 0 = (false, "invalid day (not 1-31)") ∧
    is_valid_day 32 = (false, "invalid day (not 1-31)") ∧
    is_valid_day 1 = (true, "") ∧
    is_valid_day 31 = (true, "") ∧
    is_valid_month 0 = (false, "invalid month (not 1-12)") ∧
    is_valid_month 13 = (false, "invalid month (not 1-12)") ∧
    is_valid_month 1 = (true, "") ∧
    is_valid_month 12 = (true, "") ∧
    is_valid_year 1939 = (false, "birth_year older than 1940") ∧
    is_valid_year 1940 = (true, "") ∧
    is_valid_year 123456789 = (true, "") := by
  refine ⟨fun d => ?_, fun d => ?_, fun m => ?_, fun m => ?_, fun y => ?_,
    fun y => ?_, by decide, by decide, by decide, by decide, by decide,
    by decide, by decide, by decide, by decide, by decide, by decide⟩ <;>
    · simp only [is_valid_day, is_valid_month, is_valid_year]
      split_ifs with h <;> simp <;> omega

/-- C10 counterexample: a row lacking the firstname, birthmonth,
birthyear, row_id and original_row_number keys is in the class the claim
quantifies over, yet `clean_row` does not return normally on it when its
birthday cell is "inf" (the uncaught `OverflowError` of C3). -/
theorem C10_missing_fields_counterexample :
    clean_row ⟨none, none, none, some "inf", none, none⟩ =
      .error .overflowError := by decide

/-- C10 amended: absent or null cells are treated exactly as empty strings
(replacing every cell by its empty-string default never changes the
result), and a row with all four data cells absent or null returns
normally: it is excluded with exactly the four missing-field reasons, its
original_* audit fields are null, and the row_id and original_row_number
values pass through unchanged (null when absent).  The only departure from
the claim is the "inf" overflow of the counterexample. -/
theorem C10_missing_fields (rid : Option String) (orn : Option Nat) :
    clean_row ⟨rid, orn, none, none, none, none⟩ =
      .ok (false,
        ⟨rid, orn, none, none, none, none, none, none, none, none⟩,
        ["missing name", "missing birth_day", "missing birth_month",
         "missing birth_year"]) ∧
    (∀ row : RawRow,
      clean_row row =
        clean_row ⟨row.row_id, row.original_row_number,
          some (row.firstname.getD ""), some (row.birthday.getD ""),
          some (row.birthmonth.getD ""), some (row.birthyear.getD "")⟩) :=
  ⟨rfl, fun _ => rfl⟩

/-- C9: `get_dataset_sizes` returns the original, included and excluded
counts together with the two rounded percentages, guards the percentages
to 0 when the original count is 0, and yields 60 and 40 percent on the
3-included / 2-excluded / 5-original example. -/
theorem C9_dataset_sizes :
    (∀ (inc : List IncludedRecord) (exc : List ExcludedRecord) (n : Nat),
      get_dataset_sizes inc exc n =
        { original_row_count := n
          included_row_count := inc.length
          excluded_row_count := exc.length
          percent_included_vs_original :=
            if 0 < n then pyRound2 ((inc.length : ℚ) / n * 100) else 0
          percent_excluded_vs_original :=
            if 0 < n then pyRound2 ((exc.length : ℚ) / n * 100) else 0 }) ∧
    (∀ (inc : List IncludedRecord) (exc : List ExcludedRecord),
      (get_dataset_sizes inc exc 0).percent_included_vs_original = 0 ∧
      (get_dataset_sizes inc exc 0).percent_excluded_vs_original = 0) ∧
    get_dataset_sizes [incAnn, incAnn, incAnn] [excBadJ, excBadJ] 5 =
      ⟨5, 3, 2, 60, 40⟩ := by
  refine ⟨fun inc exc n => rfl, fun inc exc => ⟨rfl, rfl⟩, ?_⟩
  simp only [get_dataset_sizes, DatasetSizes.mk.injEq, List.length_cons,
    List.length_nil]
  norm_num [pyRound2, roundHalfEven]

/-!  ## Lemmas on the stable descending sort  -/

lemma insertCountDesc_perm {α : Type} (f : α → Nat) (x : α) (l : List α) :
    (insertCountDesc f x l).Perm (x :: l) := by
  induction l with
  | nil => exact List.Perm.refl _
  | cons h t ih =>
    unfold insertCountDesc
    split_ifs with hc
    · exact (ih.cons h).trans (List.Perm.swap x h t)
    · exact List.Perm.refl _

lemma sortCountDesc_perm {α : Type} (f : α → Nat) (l : List α) :
    (sortCountDesc f l).Perm l := by
  induction l with
  | nil => exact List.Perm.refl _
  | cons h t ih =>
    exact (insertCountDesc_perm f h _).trans (ih.cons h)

lemma insertCountDesc_pairwise {α : Type} (f : α → Nat) (x : α) (l : List α)
    (hl : l.Pairwise (fun a b => f b ≤ f a)) :
    (insertCountDesc f x l).Pairwise (fun a b => f b ≤ f a) := by
  induction l with
  | nil => simp [insertCountDesc]
  | cons h t ih =>
    rcases List.pairwise_cons.mp hl with ⟨hht, hpt⟩
    unfold insertCountDesc
    split_ifs with hc
    · refine List.pairwise_cons.mpr ⟨?_, ih hpt⟩
      intro y hy
      rcases List.mem_cons.mp ((insertCountDesc_perm f x t).mem_iff.mp hy) with
        rfl | hyt
      · omega
      · exact hht y hyt
    · refine List.pairwise_cons.mpr ⟨?_, hl⟩
      intro y hy
      rcases List.mem_cons.mp hy with rfl | hyt
      · omega
      · have := hht y hyt
        omega

lemma sortCountDesc_pairwise {α : Type} (f : α → Nat) (l : List α) :
    (sortCountDesc f l).Pairwise (fun a b => f b ≤ f a) := by
  induction l with
  | nil => simp [sortCountDesc]
  | cons h t ih => exact insertCountDesc_pairwise f h _ ih

/-!  ## Lemmas on the grouping dictionary of the duplicate analysis  -/

/-- Lookup of one key in the ordered grouping dictionary. -/
def findGroup (k : String × String) :
    List ((String × String) × List IncludedRecord) → Option (List IncludedRecord)
  | [] => none
  | (k2, rs) :: t => if k2 = k then some rs else findGroup k t

lemma findGroup_addToGroup (gs : List ((String × String) × List IncludedRecord))
    (k k2 : String × String) (r : IncludedRecord) :
    findGroup k (addToGroup gs k2 r) =
      if k = k2 then some ((findGroup k gs).getD [] ++ [r])
      else findGroup k gs := by
  induction gs with
  | nil =>
    by_cases hk : k = k2
    · subst hk
      simp [addToGroup, findGroup]
    · simp [addToGroup, findGroup, hk, Ne.symm hk]
  | cons hd t ih =>
    obtain ⟨kh, rsh⟩ := hd
    show findGroup k (if kh = k2 then (kh, rsh ++ [r]) :: t
      else (kh, rsh) :: addToGroup t k2 r) = _
    by_cases h1 : kh = k2
    · subst h1
      rw [if_pos rfl]
      by_cases h2 : kh = k
      · subst h2
        simp [findGroup]
      · simp [findGroup, h2, Ne.symm h2]
    · rw [if_neg h1]
      by_cases h2 : kh = k
      · subst h2
        simp [findGroup, h1]
      · simp only [findGroup, if_neg h2]
        rw [ih]

lemma findGroup_foldl_addToGroup (ks : List (String × String))
    (r : IncludedRecord) (k : String × String) (hnd : ks.Nodup) :
    ∀ gs, findGroup k (ks.foldl (fun gs kv => addToGroup gs kv r) gs) =
      if k ∈ ks then some ((findGroup k gs).getD [] ++ [r])
      else findGroup k gs := by
  induction ks with
  | nil => intro gs; simp
  | cons kv ks ih =>
    intro gs
    rcases List.nodup_cons.mp hnd with ⟨hkv, hnd2⟩
    simp only [List.foldl_cons]
    rw [ih hnd2]
    by_cases he : k = kv
    · subst he
      rw [if_neg hkv, if_pos (List.mem_cons_self k ks)]
      rw [findGroup_addToGroup, if_pos rfl]
    · by_cases hk : k ∈ ks
      · rw [if_pos hk, if_pos (List.mem_cons_of_mem kv hk)]
        rw [findGroup_addToGroup, if_neg he]
      · rw [if_neg hk]
        have : k ∉ kv :: ks := by
          simp [he, hk]
        rw [if_neg this]
        rw [findGroup_addToGroup, if_neg he]

/-- The six combination types are pairwise distinct, so the six keys of one
record are distinct. -/
lemma comboList_nodup (r : IncludedRecord) : (comboList r).Nodup := by
  apply List.Nodup.of_map Prod.fst
  show (["name_day", "name_month", "name_year", "day_month", "day_year",
    "month_year"] : List String).Nodup
  decide

lemma findGroup_addRowGroups (gs : List ((String × String) × List IncludedRecord))
    (r : IncludedRecord) (k : String × String) :
    findGroup k (addRowGroups gs r) =
      if k ∈ comboList r then some ((findGroup k gs).getD [] ++ [r])
      else findGroup k gs :=
  findGroup_foldl_addToGroup (comboList r) r k (comboList_nodup r) gs

lemma findGroup_foldl_addRowGroups (rows : List IncludedRecord)
    (k : String × String) :
    ∀ gs, findGroup k (rows.foldl addRowGroups gs) =
      if (rows.filter fun r => decide (k ∈ comboList r)).isEmpty
      then findGroup k gs
      else some ((findGroup k gs).getD [] ++
        (rows.filter fun r => decide (k ∈ comboList r))) := by
  induction rows with
  | nil => intro gs; simp
  | cons r rows ih =>
    intro gs
    simp only [List.foldl_cons]
    rw [ih (addRowGroups gs r)]
    by_cases hmem : k ∈ comboList r
    · have hfc : (List.filter (fun r => decide (k ∈ comboList r)) (r :: rows)) =
        r :: List.filter (fun r => decide (k ∈ comboList r)) rows := by
        simp [List.filter_cons, hmem]
      rw [hfc, findGroup_addRowGroups, if_pos hmem]
      by_cases hrest : (rows.filter fun r => decide (k ∈ comboList r)).isEmpty
      · rw [if_pos hrest]
        rw [List.isEmpty_iff] at hrest
        simp [hrest]
      · rw [if_neg hrest]
        have : ¬(r :: rows.filter fun r => decide (k ∈ comboList r)).isEmpty := by
          simp
        rw [if_neg this]
        simp
    · have hfc : (List.filter (fun r => decide (k ∈ comboList r)) (r :: rows)) =
        List.filter (fun r => decide (k ∈ comboList r)) rows := by
        simp [List.filter_cons, hmem]
      rw [hfc, findGroup_addRowGroups, if_neg hmem]

lemma findGroup_buildGroups (rows : List IncludedRecord) (k : String × String) :
    findGroup k (buildGroups rows) =
      if (rows.filter fun r => decide (k ∈ comboList r)).isEmpty then none
      else some (rows.filter fun r => decide (k ∈ comboList r)) := by
  unfold buildGroups
  rw [findGroup_foldl_addRowGroups rows k []]
  simp [findGroup]

lemma addToGroup_keys (gs : List ((String × String) × List IncludedRecord))
    (k : String × String) (r : IncludedRecord) :
    (addToGroup gs k r).map Prod.fst =
      if k ∈ gs.map Prod.fst then gs.map Prod.fst
      else gs.map Prod.fst ++ [k] := by
  induction gs with
  | nil => simp [addToGroup]
  | cons hd t ih =>
    obtain ⟨kh, rsh⟩ := hd
    show ((if kh = k then (kh, rsh ++ [r]) :: t
      else (kh, rsh) :: addToGroup t k r).map Prod.fst) = _
    by_cases h1 : kh = k
    · subst h1
      simp
    · rw [if_neg h1]
      simp only [List.map_cons, ih, List.mem_cons]
      by_cases hk : k ∈ t.map Prod.fst
      · simp [hk, h1]
      · have : ¬(k = kh ∨ k ∈ t.map Prod.fst) := by
          simp [Ne.symm h1, hk]
        simp [hk, this, Ne.symm h1]

lemma addToGroup_keys_nodup (gs : List ((String × String) × List IncludedRecord))
    (k : String × String) (r : IncludedRecord)
    (h : (gs.map Prod.fst).Nodup) :
    ((addToGroup gs k r).map Prod.fst).Nodup := by
  rw [addToGroup_keys]
  split_ifs with hk
  · exact h
  · rw [List.nodup_append]
    exact ⟨h, List.nodup_singleton k, by simp [hk]⟩

lemma foldl_addToGroup_keys_nodup (ks : List (String × String))
    (r : IncludedRecord) :
    ∀ gs, (gs.map Prod.fst).Nodup →
      (((ks.foldl (fun gs kv => addToGroup gs kv r) gs)).map Prod.fst).Nodup := by
  induction ks with
  | nil => intro gs h; exact h
  | cons kv ks ih =>
    intro gs h
    exact ih _ (addToGroup_keys_nodup gs kv r h)

lemma buildGroups_keys_nodup (rows : List IncludedRecord) :
    ((buildGroups rows).map Prod.fst).Nodup := by
  unfold buildGroups
  have : ∀ gs, (gs.map Prod.fst).Nodup →
      ((rows.foldl addRowGroups gs).map Prod.fst).Nodup := by
    induction rows with
    | nil => intro gs h; exact h
    | cons r rows ih =>
      intro gs h
      exact ih _ (foldl_addToGroup_keys_nodup (comboList r) r gs h)
  exact this [] (by simp)

lemma findGroup_of_mem (k : String × String) (rs : List IncludedRecord) :
    ∀ gs : List ((String × String) × List IncludedRecord),
      (gs.map Prod.fst).Nodup → (k, rs) ∈ gs → findGroup k gs = some rs := by
  intro gs
  induction gs with
  | nil => intro _ hmem; simp at hmem
  | cons hd t ih =>
    intro hnd hmem
    obtain ⟨k2, rs2⟩ := hd
    have hk2 : k2 ∉ t.map Prod.fst := (List.nodup_cons.mp (by simpa using hnd)).1
    have hnd2 : (t.map Prod.fst).Nodup := (List.nodup_cons.mp (by simpa using hnd)).2
    rcases List.mem_cons.mp hmem with heq | hmem2
    · obtain ⟨h1, h2⟩ := Prod.ext_iff.mp heq.symm
      subst h1
      subst h2
      simp [findGroup]
    · have hne : k2 ≠ k := by
        intro he
        subst he
        exact hk2 (List.mem_map_of_mem Prod.fst hmem2)
      simp only [findGroup, if_neg hne]
      exact ih hnd2 hmem2

/-- Every retained duplicate group really is the set of rows matching its
key: its count is the number of included records carrying that
(type, value) combination, and its sample records are the first 10 of
them, in input order. -/
lemma significantDuplicates_spec (rows : List IncludedRecord) (g : DupGroup)
    (hg : g ∈ significantDuplicates rows) :
    2 ≤ g.count ∧
    g.count = (rows.filter fun r =>
      decide ((g.combination_type, g.combination_value) ∈ comboList r)).length ∧
    g.records = (rows.filter fun r =>
      decide ((g.combination_type, g.combination_value) ∈ comboList r)).take 10 := by
  unfold significantDuplicates at hg
  rcases List.mem_map.mp hg with ⟨⟨k, rs⟩, hmem, hgid⟩
  rcases List.mem_filter.mp hmem with ⟨hmemb, hlen⟩
  have hfind := findGroup_of_mem k rs (buildGroups rows)
    (buildGroups_keys_nodup rows) hmemb
  rw [findGroup_buildGroups] at hfind
  subst hgid
  simp only [Prod.mk.eta]
  split at hfind
  · simp at hfind
  · have hrs : rows.filter (fun r => decide (k ∈ comboList r)) = rs :=
      Option.some.injEq .. ▸ (by simpa using hfind)
    have h2 : 2 ≤ rs.length := by simpa using hlen
    exact ⟨h2, by rw [hrs], by rw [hrs]⟩

/-!  ## Sample records for the duplicate analysis example  -/

/-- First sample included record of the duplicate grouping example. -/
def dupAnn1 : IncludedRecord := ⟨some "r1", some 2, "Ann", 1, 5, 1990⟩

/-- Second sample included record, duplicating every field value of
`dupAnn1`. -/
def dupAnn2 : IncludedRecord := ⟨some "r2", some 3, "Ann", 1, 5, 1990⟩

/-- Third sample included record, sharing no pairwise key with the other
two. -/
def dupBob : IncludedRecord := ⟨some "r3", some 4, "Bob", 2, 6, 1991⟩

/-- C7 counterexample: on the empty included collection the early return
of `get_duplicate_analysis` omits the `unique_duplicate_groups` key
entirely (modelled as `none`) instead of reporting the count 0 of distinct
retained groups. -/
theorem C7_duplicate_analysis_counterexample :
    get_duplicate_analysis [] = ⟨0, none, []⟩ ∧
    (get_duplicate_analysis []).unique_duplicate_groups ≠ some 0 := by decide

/-- C7 amended: for every non-empty included collection,
`get_duplicate_analysis` groups the records by the six pairwise
(type, value) keys, retains the groups with at least 2 members, reports at
most 50 groups sorted by count descending (stable, so first-encountered
keys win ties), each with at most 10 sample records and a count equal to
the number of included records matching its key, the count of distinct
retained groups, and a total equal to the sum of all retained group sizes;
the Ann/Ann/Bob example yields exactly the six Ann groups of count 2. -/
theorem C7_duplicate_analysis (included : List IncludedRecord)
    (hne : included ≠ []) :
    (get_duplicate_analysis included).duplicate_groups =
      (sortCountDesc (fun g => g.count) (significantDuplicates included)).take 50 ∧
    (get_duplicate_analysis included).unique_duplicate_groups =
      some (significantDuplicates included).length ∧
    (get_duplicate_analysis included).total_duplicate_records =
      ((significantDuplicates included).map fun g => g.count).sum ∧
    (get_duplicate_analysis included).duplicate_groups.length ≤ 50 ∧
    (get_duplicate_analysis included).duplicate_groups.Pairwise
      (fun a b => b.count ≤ a.count) ∧
    (∀ g ∈ (get_duplicate_analysis included).duplicate_groups,
      2 ≤ g.count ∧ g.records.length ≤ 10 ∧
      g.count = (included.filter fun r =>
        decide ((g.combination_type, g.combination_value) ∈ comboList r)).length ∧
      g.records = (included.filter fun r =>
        decide ((g.combination_type, g.combination_value) ∈ comboList r)).take 10) ∧
    get_duplicate_analysis [dupAnn1, dupAnn2, dupBob] =
      ⟨12, some 6,
       [⟨"name_day", "Ann|1", 2, [dupAnn1, dupAnn2]⟩,
        ⟨"name_month", "Ann|5", 2, [dupAnn1, dupAnn2]⟩,
        ⟨"name_year", "Ann|1990", 2, [dupAnn1, dupAnn2]⟩,
        ⟨"day_month", "1|5", 2, [dupAnn1, dupAnn2]⟩,
        ⟨"day_year", "1|1990", 2, [dupAnn1, dupAnn2]⟩,
        ⟨"month_year", "5|1990", 2, [dupAnn1, dupAnn2]⟩]⟩ := by
  have hie : included.isEmpty = false := by
    cases included with
    | nil => exact absurd rfl hne
    | cons h t => rfl
  unfold get_duplicate_analysis
  rw [hie]
  simp only [Bool.false_eq_true, if_false]
  refine ⟨trivial, trivial, trivial, ?_, ?_, ?_, by decide⟩
  · simpa using List.length_take_le 50 _
  · exact List.Pairwise.sublist (List.take_sublist _ _)
      (sortCountDesc_pairwise _ _)
  · intro g hg
    have hg2 : g ∈ sortCountDesc (fun g => g.count) (significantDuplicates included) :=
      List.mem_of_mem_take hg
    have hg3 : g ∈ significantDuplicates included :=
      (sortCountDesc_perm _ _).mem_iff.mp hg2
    obtain ⟨h2, hcnt, hrec⟩ := significantDuplicates_spec included g hg3
    refine ⟨h2, ?_, hcnt, hrec⟩
    rw [hrec]
    exact List.length_take_le 10 _

/-- Witness for C7 at the three-record example collection. -/
theorem C7_duplicate_analysis_witness :
    (get_duplicate_analysis [dupAnn1, dupAnn2, dupBob]).duplicate_groups =
      (sortCountDesc (fun g => g.count)
        (significantDuplicates [dupAnn1, dupAnn2, dupBob])).take 50 ∧
    (get_duplicate_analysis [dupAnn1, dupAnn2, dupBob]).unique_duplicate_groups =
      some (significantDuplicates [dupAnn1, dupAnn2, dupBob]).length ∧
    (get_duplicate_analysis [dupAnn1, dupAnn2, dupBob]).total_duplicate_records =
      ((significantDuplicates [dupAnn1, dupAnn2, dupBob]).map fun g => g.count).sum ∧
    (get_duplicate_analysis [dupAnn1, dupAnn2, dupBob]).duplicate_groups.length ≤ 50 ∧
    (get_duplicate_analysis [dupAnn1, dupAnn2, dupBob]).duplicate_groups.Pairwise
      (fun a b => b.count ≤ a.count) ∧
    (∀ g ∈ (get_duplicate_analysis [dupAnn1, dupAnn2, dupBob]).duplicate_groups,
      2 ≤ g.count ∧ g.records.length ≤ 10 ∧
      g.count = ([dupAnn1, dupAnn2, dupBob].filter fun r =>
        decide ((g.combination_type, g.combination_value) ∈ comboList r)).length ∧
      g.records = ([dupAnn1, dupAnn2, dupBob].filter fun r =>
        decide ((g.combination_type, g.combination_value) ∈ comboList r)).take 10) ∧
    get_duplicate_analysis [dupAnn1, dupAnn2, dupBob] =
      ⟨12, some 6,
       [⟨"name_day", "Ann|1", 2, [dupAnn1, dupAnn2]⟩,
        ⟨"name_month", "Ann|5", 2, [dupAnn1, dupAnn2]⟩,
        ⟨"name_year", "Ann|1990", 2, [dupAnn1, dupAnn2]⟩,
        ⟨"day_month", "1|5", 2, [dupAnn1, dupAnn2]⟩,
        ⟨"day_year", "1|1990", 2, [dupAnn1, dupAnn2]⟩,
        ⟨"month_year", "5|1990", 2, [dupAnn1, dupAnn2]⟩]⟩ :=
  C7_duplicate_analysis [dupAnn1, dupAnn2, dupBob] (by decide)

/-!  ## Lemmas on the exclusion-reason counter  -/

/-- Lookup of one reason in the ordered counter. -/
def findCount (r : String) : List (String × Nat) → Option Nat
  | [] => none
  | (k, n) :: t => if k = r then some n else findCount r t

lemma findCount_bumpCounter (c : List (String × Nat)) (r r2 : String) :
    findCount r (bumpCounter c r2) =
      if r = r2 then some ((findCount r c).getD 0 + 1) else findCount r c := by
  induction c with
  | nil =>
    by_cases hr : r = r2
    · subst hr
      simp [bumpCounter, findCount]
    · simp [bumpCounter, findCount, hr, Ne.symm hr]
  | cons hd t ih =>
    obtain ⟨k, n⟩ := hd
    show findCount r (if k = r2 then (k, n + 1) :: t
      else (k, n) :: bumpCounter t r2) = _
    by_cases h1 : k = r2
    · subst h1
      rw [if_pos rfl]
      by_cases h2 : k = r
      · subst h2
        simp [findCount]
      · simp [findCount, h2, Ne.symm h2]
    · rw [if_neg h1]
      by_cases h2 : k = r
      · subst h2
        simp [findCount, h1]
      · simp only [findCount, if_neg h2]
        rw [ih]

lemma findCount_foldl_bump (segs : List String) (r : String) :
    ∀ c, findCount r (segs.foldl bumpCounter c) =
      if segs.count r = 0 then findCount r c
      else some ((findCount r c).getD 0 + segs.count r) := by
  induction segs with
  | nil => intro c; simp
  | cons s segs ih =>
    intro c
    simp only [List.foldl_cons]
    rw [ih (bumpCounter c s), findCount_bumpCounter]
    by_cases hs : r = s
    · subst hs
      rw [if_pos rfl, List.count_cons_self]
      by_cases hz : segs.count r = 0
      · rw [hz, if_pos rfl]
        simp [hz]
      · rw [if_neg hz, if_neg (by omega)]
        simp only [Option.getD_some]
        congr 1
        omega
    · rw [if_neg hs, List.count_cons_of_ne (by simpa using hs)]

lemma findCount_rows_fold (rows : List ExcludedRecord) (r : String) :
    ∀ c, findCount r
        (rows.foldl (fun c row => (reasonSegments row).foldl bumpCounter c) c) =
      if ((rows.map reasonSegments).flatten).count r = 0 then findCount r c
      else some ((findCount r c).getD 0 +
        ((rows.map reasonSegments).flatten).count r) := by
  induction rows with
  | nil => intro c; simp
  | cons row rows ih =>
    intro c
    simp only [List.foldl_cons, List.map_cons, List.flatten_cons, List.count_append]
    rw [ih (List.foldl bumpCounter c (reasonSegments row)), findCount_foldl_bump]
    by_cases h1 : (reasonSegments row).count r = 0 <;>
      by_cases h2 : ((rows.map reasonSegments).flatten).count r = 0
    · rw [if_pos h2, if_pos h1, if_pos (by omega)]
    · rw [if_neg h2, if_pos h1, if_neg (by omega), h1]
      simp
    · rw [if_pos h2, if_neg h1, if_neg (by omega), h2]
      simp
    · rw [if_neg h2, if_neg h1, if_neg (by omega)]
      simp only [Option.getD_some]
      congr 1
      omega

lemma bumpCounter_keys (c : List (String × Nat)) (r : String) :
    (bumpCounter c r).map Prod.fst =
      if r ∈ c.map Prod.fst then c.map Prod.fst else c.map Prod.fst ++ [r] := by
  induction c with
  | nil => simp [bumpCounter]
  | cons hd t ih =>
    obtain ⟨k, n⟩ := hd
    show ((if k = r then (k, n + 1) :: t else (k, n) :: bumpCounter t r).map
      Prod.fst) = _
    by_cases h1 : k = r
    · subst h1
      simp
    · rw [if_neg h1]
      simp only [List.map_cons, ih, List.mem_cons]
      by_cases hk : r ∈ t.map Prod.fst
      · simp [hk, h1]
      · have : ¬(r = k ∨ r ∈ t.map Prod.fst) := by
          simp [Ne.symm h1, hk]
        simp [hk, this, Ne.symm h1]

lemma bumpCounter_keys_nodup (c : List (String × Nat)) (r : String)
    (h : (c.map Prod.fst).Nodup) : ((bumpCounter c r).map Prod.fst).Nodup := by
  rw [bumpCounter_keys]
  split_ifs with hk
  · exact h
  · rw [List.nodup_append]
    exact ⟨h, List.nodup_singleton r, by simp [hk]⟩

lemma counter_keys_nodup (rows : List ExcludedRecord) :
    ((rows.foldl (fun c row => (reasonSegments row).foldl bumpCounter c)
      []).map Prod.fst).Nodup := by
  have hsegs : ∀ (segs : List String) (c : List (String × Nat)),
      (c.map Prod.fst).Nodup →
      ((segs.foldl bumpCounter c).map Prod.fst).Nodup := by
    intro segs
    induction segs with
    | nil => intro c h; exact h
    | cons s segs ih => intro c h; exact ih _ (bumpCounter_keys_nodup c s h)
  have : ∀ c, (c.map Prod.fst).Nodup →
      ((rows.foldl (fun c row => (reasonSegments row).foldl bumpCounter c)
        c).map Prod.fst).Nodup := by
    induction rows with
    | nil => intro c h; exact h
    | cons row rows ih => intro c h; exact ih _ (hsegs _ c h)
  exact this [] (by simp)

lemma findCount_of_mem (r : String) (n : Nat) :
    ∀ c : List (String × Nat),
      (c.map Prod.fst).Nodup → (r, n) ∈ c → findCount r c = some n := by
  intro c
  induction c with
  | nil => intro _ hmem; simp at hmem
  | cons hd t ih =>
    intro hnd hmem
    obtain ⟨k, m⟩ := hd
    have hk : k ∉ t.map Prod.fst := (List.nodup_cons.mp (by simpa using hnd)).1
    have hnd2 : (t.map Prod.fst).Nodup := (List.nodup_cons.mp (by simpa using hnd)).2
    rcases List.mem_cons.mp hmem with heq | hmem2
    · obtain ⟨h1, h2⟩ := Prod.ext_iff.mp heq.symm
      subst h1
      subst h2
      simp [findCount]
    · have hne : k ≠ r := by
        intro he
        subst he
        exact hk (List.mem_map_of_mem Prod.fst hmem2)
      simp only [findCount, if_neg hne]
      exact ih hnd2 hmem2

lemma mem_of_findCount (r : String) (n : Nat) :
    ∀ c : List (String × Nat), findCount r c = some n → (r, n) ∈ c := by
  intro c
  induction c with
  | nil => intro h; simp [findCount] at h
  | cons hd t ih =>
    intro h
    obtain ⟨k, m⟩ := hd
    by_cases hk : k = r
    · subst hk
      simp only [findCount, eq_self_iff_true, if_true, Option.some.injEq] at h
      rw [← h]
      exact List.mem_cons_self _ _
    · simp only [findCount, if_neg hk] at h
      exact List.mem_cons_of_mem _ (ih h)

/-- Spec-side tally of one reason code: occurrences of the reason among
the split, whitespace-trimmed segments of every excluded record. -/
def reasonTally (excluded : List ExcludedRecord) (r : String) : Nat :=
  ((excluded.map fun row =>
    (pySplitChar ';' row.exclusion_reason.data).map pyStrip).flatten).count r

lemma count_reasonSegments (excluded : List ExcludedRecord) (r : String)
    (hr : r ≠ "") :
    ((excluded.map reasonSegments).flatten).count r = reasonTally excluded r := by
  unfold reasonTally
  induction excluded with
  | nil => simp
  | cons row rows ih =>
    simp only [List.map_cons, List.flatten_cons, List.count_append]
    rw [ih]
    congr 1
    unfold reasonSegments
    exact List.count_filter (by simp [hr])

lemma count_empty_segment (excluded : List ExcludedRecord) :
    ((excluded.map reasonSegments).flatten).count "" = 0 := by
  rw [List.count_eq_zero]
  intro hmem
  rcases List.mem_flatten.mp hmem with ⟨l, hl, hml⟩
  rcases List.mem_map.mp hl with ⟨row, -, rfl⟩
  have := (List.mem_filter.mp hml).2
  simp at this

/-- C8: the exclusion-reason summary lists exactly the nonempty reason
codes that occur among the split, trimmed segments of the excluded
records, each with its total occurrence count (a record with several
reasons feeds each of its counters), sorted descending by count with
first-encountered order breaking ties (the sort is stable); the two-record
example tallies "missing name" twice and the invalid-birth-day reason
once. -/
theorem C8_exclusion_reasons :
    (∀ (excluded : List ExcludedRecord) (r : String) (n : Nat),
      ((r, n) ∈ get_exclusion_reasons_summary excluded ↔
        r ≠ "" ∧ 0 < n ∧ n = reasonTally excluded r)) ∧
    (∀ excluded : List ExcludedRecord,
      (get_exclusion_reasons_summary excluded).Pairwise
        (fun a b => b.2 ≤ a.2)) ∧
    get_exclusion_reasons_summary
      [⟨none, none, none, none, none, none,
        "missing name; invalid birth_day (not numeric)"⟩,
       ⟨none, none, none, none, none, none, "missing name"⟩] =
      [("missing name", 2), ("invalid birth_day (not numeric)", 1)] := by
  refine ⟨?_, ?_, by decide⟩
  · intro excluded r n
    by_cases hie : excluded.isEmpty
    · have he : excluded = [] := List.isEmpty_iff.mp hie
      subst he
      constructor
      · intro h
        simp [get_exclusion_reasons_summary] at h
      · rintro ⟨-, h1, h2⟩
        have hz : reasonTally [] r = 0 := rfl
        omega
    · have hsum : get_exclusion_reasons_summary excluded =
          sortCountDesc (fun p : String × Nat => p.2)
            (excluded.foldl
              (fun c row => (reasonSegments row).foldl bumpCounter c) []) := by
        unfold get_exclusion_reasons_summary
        rw [if_neg hie]
      rw [hsum]
      constructor
      · intro hmem
        have hmem2 := (sortCountDesc_perm (fun p : String × Nat => p.2) _).mem_iff.mp hmem
        have hfind := findCount_of_mem r n _ (counter_keys_nodup excluded) hmem2
        rw [findCount_rows_fold excluded r []] at hfind
        by_cases hz : ((excluded.map reasonSegments).flatten).count r = 0
        · rw [if_pos hz] at hfind
          simp [findCount] at hfind
        · rw [if_neg hz] at hfind
          simp only [findCount, Option.getD_none, Nat.zero_add,
            Option.some.injEq] at hfind
          have hr : r ≠ "" := by
            intro he
            subst he
            exact hz (count_empty_segment excluded)
          refine ⟨hr, by omega, ?_⟩
          rw [← hfind, count_reasonSegments excluded r hr]
      · rintro ⟨hr, hpos, hn⟩
        have hz : ((excluded.map reasonSegments).flatten).count r ≠ 0 := by
          rw [count_reasonSegments excluded r hr]
          omega
        have hcv : ((excluded.map reasonSegments).flatten).count r = n := by
          rw [count_reasonSegments excluded r hr]
          omega
        have hfind : findCount r
            (excluded.foldl
              (fun c row => (reasonSegments row).foldl bumpCounter c) []) =
            some n := by
          rw [findCount_rows_fold excluded r [], if_neg hz, hcv]
          simp [findCount]
        exact (sortCountDesc_perm (fun p : String × Nat => p.2) _).mem_iff.mpr
          (mem_of_findCount r n _ hfind)
  · intro excluded
    unfold get_exclusion_reasons_summary
    split_ifs
    · simp
    · exact sortCountDesc_pairwise (fun p : String × Nat => p.2) _
